import Mathlib

/-!
# Verification of the `lorentz_vector` library

Shallow embedding of `src/lib.rs` (crate `lorentz_vector`): the four-component
Lorentz vector type and the arithmetic, kinematic and boost operations built on
it. Scalars are modelled by an arbitrary Lean `Field` for the purely algebraic
operations (mirroring the crate's `Field` trait bound) and by the real numbers
`ℝ` for the floating-point operations (`sqrt`, `atan2`, `acos`, boosts), with
the f64 constants `EPSILON`, `MAX` and `MIN` carried as exact rational
constants. Rust panics (`panic!`, `unreachable!`, out-of-bounds slice indexing)
are modelled by `Option`: `none` is a panic.
-/

/-- The vector type of `src/lib.rs`: four named components `t, x, y, z` of a
single scalar type. -/
@[ext]
structure LorentzVector (T : Type) where
  t : T
  x : T
  y : T
  z : T
deriving DecidableEq, Repr

namespace LorentzVector

variable {T : Type} [Field T]

/-- Rust `LorentzVector::new`: all components are `T::default()`, which is zero for
every numeric scalar the crate instantiates. -/
def new : LorentzVector T := ⟨0, 0, 0, 0⟩

/-- Rust `LorentzVector::from_args`. -/
def from_args (t x y z : T) : LorentzVector T := ⟨t, x, y, z⟩

/-- Rust `LorentzVector::from_slice`: reads `v[0], v[1], v[2], v[3]`. Rust slice
indexing `v[i]` panics when `i >= v.len()`, so the four reads succeed exactly
when the slice has at least four elements; `none` models the panic. -/
def from_slice (v : List T) : Option (LorentzVector T) :=
  match v[0]?, v[1]?, v[2]?, v[3]? with
  | some t, some x, some y, some z => some ⟨t, x, y, z⟩
  | _, _, _, _ => none

/-- Rust `LorentzVector::from_vec`: identical body to `from_slice` (reads indices
0..3 of the vector, panicking when the length is below 4). -/
def from_vec (v : List T) : Option (LorentzVector T) :=
  match v[0]?, v[1]?, v[2]?, v[3]? with
  | some t, some x, some y, some z => some ⟨t, x, y, z⟩
  | _, _, _, _ => none

/-- Rust `LorentzVector::dual`: negates the spatial components, keeps `t`. -/
def dual (v : LorentzVector T) : LorentzVector T := ⟨v.t, -v.x, -v.y, -v.z⟩

/-- Rust `LorentzVector::square`: `t*t - x*x - y*y - z*z`. -/
def square (v : LorentzVector T) : T :=
  v.t * v.t - v.x * v.x - v.y * v.y - v.z * v.z

/-- Rust `LorentzVector::dot`: Minkowski dot product. -/
def dot (v other : LorentzVector T) : T :=
  v.t * other.t - v.x * other.x - v.y * other.y - v.z * other.z

/-- Rust `LorentzVector::spatial_squared`. -/
def spatial_squared (v : LorentzVector T) : T :=
  v.x * v.x + v.y * v.y + v.z * v.z

/-- Rust `LorentzVector::spatial_dot`. -/
def spatial_dot (v other : LorentzVector T) : T :=
  v.x * other.x + v.y * other.y + v.z * other.z

/-- Rust `LorentzVector::euclidean_square`. -/
def euclidean_square (v : LorentzVector T) : T :=
  v.t * v.t + v.x * v.x + v.y * v.y + v.z * v.z

/-- Rust `LorentzVector::euclidean_dot`: all-positive metric. -/
def euclidean_dot (v other : LorentzVector T) : T :=
  v.t * other.t + v.x * other.x + v.y * other.y + v.z * other.z

/-- Rust `Add for LorentzVector` (componentwise). -/
def add (v other : LorentzVector T) : LorentzVector T :=
  ⟨v.t + other.t, v.x + other.x, v.y + other.y, v.z + other.z⟩

/-- Rust `Sub for LorentzVector` (componentwise). -/
def sub (v other : LorentzVector T) : LorentzVector T :=
  ⟨v.t - other.t, v.x - other.x, v.y - other.y, v.z - other.z⟩

/-- Rust `Neg for LorentzVector` (componentwise). -/
def neg (v : LorentzVector T) : LorentzVector T := ⟨-v.t, -v.x, -v.y, -v.z⟩

/-- Rust `Mul<T> for LorentzVector<T>`: every component multiplied by the scalar. -/
def smul (v : LorentzVector T) (s : T) : LorentzVector T :=
  ⟨v.t * s, v.x * s, v.y * s, v.z * s⟩

/-- Rust `Div<T> for LorentzVector<T>`: `let o = other.inv(); self * o`. The Rust
`Inv` of a float is its reciprocal; it is modelled by the field inverse, whose
value at zero (`0⁻¹ = 0` in Lean) stands for the implementation-defined result
(`inf` for floats) — the point of the claim being that no separate error path
exists. -/
def divScalar (v : LorentzVector T) (other : T) : LorentzVector T :=
  smul v other⁻¹

/-- The spec's description of scalar division, §4.2: "each component multiplied
by the scalar's inverse". Written from the spec's words, to be compared with
the source's `divScalar`. -/
def div_spec (v : LorentzVector T) (s : T) : LorentzVector T :=
  ⟨v.t * s⁻¹, v.x * s⁻¹, v.y * s⁻¹, v.z * s⁻¹⟩

/-- Rust `LorentzVector::add_signed`: matches on the sign, with the catch-all arm
`unreachable!("Sign is not -1,0,1")` modelled as `none` (a panic). -/
def add_signed (sel other : LorentzVector T) (sign : Int) :
    Option (LorentzVector T) :=
  match sign with
  | 0 => some sel
  | 1 => some (add sel other)
  | -1 => some (sub sel other)
  | _ => none

/-- State-passing translation of `add_signed`, whose Rust receiver is
`&mut self`: the result pairs the outgoing state of `self` with the returned
vector. The body only reads `self` (`self.clone()`, `*self + other`,
`*self - other`; no field assignment), so each arm passes the incoming state
through unchanged. -/
def add_signedState (sel other : LorentzVector T) (sign : Int) :
    Option (LorentzVector T × LorentzVector T) :=
  match sign with
  | 0 => some (sel, sel)
  | 1 => some (sel, add sel other)
  | -1 => some (sel, sub sel other)
  | _ => none

end LorentzVector

/-! ## Floating-point constants and real-valued operations

The crate's kinematic and boost code is bounded by `T: Float + Field`; it is
modelled over `ℝ`, with the IEEE f64 constants `T::epsilon()`, `T::max_value()`
and `T::min_value()` as the exact rationals they denote. Rounding is not
modelled: the claims below are about branch structure and exact-real algebra,
as the spec itself qualifies ("exactly over exact real arithmetic"). -/

/-- Rust `f64::EPSILON = 2⁻⁵²`. -/
noncomputable def eps64 : ℝ := (2 ^ 52 : ℝ)⁻¹

/-- Rust `f64::MAX = (2 − 2⁻⁵²)·2¹⁰²³`. -/
noncomputable def f64_max : ℝ := (2 - eps64) * 2 ^ 1023

/-- Rust `f64::MIN = −f64::MAX`. -/
noncomputable def f64_min : ℝ := -f64_max

/-- Rust `f64::atan2(self = y, other = x)` over the reals: the angle of the point
`(x, y)` in `(−π, π]`. IEEE signed-zero distinctions at `x ≤ 0, y = ±0` have no
real counterpart; this models the non-signed-zero behaviour. -/
noncomputable def atan2 (y x : ℝ) : ℝ :=
  if 0 < x then Real.arctan (y / x)
  else if x < 0 then
    if 0 ≤ y then Real.arctan (y / x) + Real.pi
    else Real.arctan (y / x) - Real.pi
  else
    if 0 < y then Real.pi / 2
    else if y < 0 then -(Real.pi / 2)
    else 0

namespace LorentzVector

/-- Rust `LorentzVector::spatial_distance`: `(x*x + y*y + z*z).sqrt()`. -/
noncomputable def spatial_distance (v : LorentzVector ℝ) : ℝ :=
  Real.sqrt (v.x * v.x + v.y * v.y + v.z * v.z)

/-- Rust `LorentzVector::euclidean_distance`: `(t*t + x*x + y*y + z*z).sqrt()`. -/
noncomputable def euclidean_distance (v : LorentzVector ℝ) : ℝ :=
  Real.sqrt (v.t * v.t + v.x * v.x + v.y * v.y + v.z * v.z)

/-- Rust `LorentzVector::pt`: `(x*x + y*y).sqrt()`. -/
noncomputable def pt (v : LorentzVector ℝ) : ℝ :=
  Real.sqrt (v.x * v.x + v.y * v.y)

/-- Rust `LorentzVector::boost`. `gamma = (1 - b2).sqrt().inv()`; the second-order
coefficient `gamma2` is `(gamma - 1)/b2` when `b2 > 0` and `0` otherwise;
`a.mul_add(b, c)` is `a*b + c`. -/
noncomputable def boost (v bv : LorentzVector ℝ) : LorentzVector ℝ :=
  let b2 := spatial_squared bv
  let gamma := (Real.sqrt (1 - b2))⁻¹
  let bp := spatial_dot v bv
  let gamma2 := if 0 < b2 then (gamma - 1) / b2 else 0
  let factor := gamma2 * bp + gamma * v.t
  ⟨gamma * (v.t + bp),
   bv.x * factor + v.x,
   bv.y * factor + v.y,
   bv.z * factor + v.z⟩

/-- Rust `LorentzVector::pseudo_rap`. The degenerate branch fires when both `pt`
and `|z|` are below `T::epsilon()`; it returns `T::max_value()` when `z > 0`
and `T::min_value()` otherwise. -/
noncomputable def pseudo_rap (v : LorentzVector ℝ) : ℝ :=
  let ptv := pt v
  if ptv < eps64 ∧ |v.z| < eps64 then
    if 0 < v.z then f64_max else f64_min
  else
    let th := atan2 ptv v.z;
    -Real.log (Real.tan (th / (1 + 1)))

/-- Rust `LorentzVector::getdelphi`. `none` models the
`panic!("Cosine larger than 1. in phase-space cuts.")` arm. -/
noncomputable def getdelphi (v p2 : LorentzVector ℝ) : Option ℝ :=
  let pt1 := pt v
  let pt2 := pt p2
  if pt1 = 0 ∨ pt2 = 0 then some f64_max
  else
    let tmp := (v.x * p2.x + v.y * p2.y) / (pt1 * pt2)
    if 1 + eps64 < |tmp| then none
    else if 1 < |tmp| then some (Real.arccos (tmp / |tmp|))
    else some (Real.arccos tmp)

/-- The cosine ratio `tmp` computed inside `getdelphi` on its non-degenerate
path: `(self.x * p2.x + self.y * p2.y) / (pt1 * pt2)`. -/
noncomputable def cosdelphi (v p2 : LorentzVector ℝ) : ℝ :=
  (v.x * p2.x + v.y * p2.y) / (pt v * pt p2)

/-- Rust `LorentzVector::boost_from_to`. `eps = T::epsilon() + T::epsilon()`; the
final expression `self + na * (ratiob - 1) / (1 + 1) * plus + nb * ...`
associates as `((na * s) / (1+1)) * plus`, with `/` the crate's
multiply-by-inverse scalar division. -/
noncomputable def boost_from_to (sel p q : LorentzVector ℝ) :
    LorentzVector ℝ :=
  let eps := eps64 + eps64
  let p_abs := euclidean_distance p
  let q_abs := euclidean_distance q
  if spatial_distance (sub p q) < eps * eps then new
  else
    let n0 := sub q p
    let n_vec := divScalar n0 (spatial_distance n0)
    let na : LorentzVector ℝ := ⟨1, n_vec.x, n_vec.y, n_vec.z⟩
    let nb : LorentzVector ℝ := ⟨1, -n_vec.x, -n_vec.y, -n_vec.z⟩
    let p_plus := dot p nb
    let p_minus := dot p na
    let q_plus := dot q nb
    let q_minus := dot q na
    let rr : ℝ × ℝ :=
      if p_minus / p_abs < eps ∧ q_minus / q_abs < eps then
        if p_plus / p_abs < eps ∧ q_plus / q_abs < eps then (1, 1)
        else (1 / (q_plus / p_plus), q_plus / p_plus)
      else
        if p_plus / p_abs < eps ∧ q_plus / q_abs < eps then
          (q_minus / p_minus, 1 / (q_minus / p_minus))
        else (q_minus / p_minus, q_plus / p_plus)
    let ratioa := rr.1
    let ratiob := rr.2
    let plus := dot sel nb
    let minus := dot sel na
    add (add sel (smul (divScalar (smul na (ratiob - 1)) (1 + 1)) plus))
      (smul (divScalar (smul nb (ratioa - 1)) (1 + 1)) minus)

end LorentzVector

open LorentzVector

/-! ## Helper lemmas -/

theorem eps64_pos : 0 < eps64 := by
  unfold eps64; positivity

theorem f64_max_pos : 0 < f64_max := by
  unfold f64_max eps64
  norm_num

/-- Evaluation of `pseudo_rap` at `(1,0,0,0)`: `pt = 0 < ε` and `|z| = 0 < ε`
take the degenerate branch, and `z = 0` fails the `z > 0` test, so the result
is `T::min_value()`. -/
theorem pseudo_rap_at_1000 : pseudo_rap ⟨1, 0, 0, 0⟩ = f64_min := by
  have hpt : pt (⟨1, 0, 0, 0⟩ : LorentzVector ℝ) = 0 := by
    simp [pt]
  simp only [pseudo_rap, hpt]
  rw [if_pos ⟨eps64_pos, by simpa using eps64_pos⟩, if_neg (lt_irrefl 0)]

/-! ## Claims -/

/-- C10: for all vectors `a, b`, `a.dual().dot(b) = a.euclidean_dot(b)`:
negating the spatial components turns the Minkowski dot product into the
Euclidean one. -/
theorem dual_dot_eq_euclidean_dot {T : Type} [Field T]
    (a b : LorentzVector T) :
    dot (dual a) b = euclidean_dot a b := by
  simp only [dot, dual, euclidean_dot]
  ring

/-- C7: for every vector `v` and scalar `s`, including `s = 0`, `v / s` is
`v * s.inv()` — each component multiplied by the scalar's inverse, with no
separate error path for a non-invertible scalar. -/
theorem div_is_mul_by_inv {T : Type} [Field T] (v : LorentzVector T) (s : T) :
    divScalar v s = div_spec v s := rfl

/-- C8: `add_signed` returns `self` for sign 0, `self + other` for sign 1,
`self - other` for sign −1, and panics (`none`) on every other sign. -/
theorem add_signed_cases {T : Type} [Field T]
    (sel other : LorentzVector T) (sign : Int) :
    add_signed sel other 0 = some sel ∧
    add_signed sel other 1 = some (add sel other) ∧
    add_signed sel other (-1) = some (sub sel other) ∧
    (sign ≠ 0 → sign ≠ 1 → sign ≠ -1 → add_signed sel other sign = none) := by
  refine ⟨rfl, rfl, rfl, ?_⟩
  intro h0 h1 hm
  unfold add_signed
  split
  · exact absurd rfl h0
  · exact absurd rfl h1
  · exact absurd rfl hm
  · rfl

/-- Witness for C8: sign 2 is outside {−1,0,1} and panics. -/
theorem add_signed_cases_witness :
    add_signed (⟨1, 2, 3, 4⟩ : LorentzVector ℚ) ⟨5, 6, 7, 8⟩ 2 = none :=
  (add_signed_cases (⟨1, 2, 3, 4⟩ : LorentzVector ℚ) ⟨5, 6, 7, 8⟩ 2).2.2.2
    (by decide) (by decide) (by decide)

/-- C9: for sign in {−1,0,1}, `add_signed` leaves its `&mut self` receiver
unmodified: the outgoing state of `self` equals the incoming one, the result
being returned as a new vector. -/
theorem add_signed_preserves_receiver {T : Type} [Field T]
    (sel other : LorentzVector T) (sign : Int)
    (h : sign = -1 ∨ sign = 0 ∨ sign = 1) :
    ∃ r, add_signedState sel other sign = some (sel, r) := by
  rcases h with h | h | h <;> subst h
  · exact ⟨sub sel other, rfl⟩
  · exact ⟨sel, rfl⟩
  · exact ⟨add sel other, rfl⟩

/-- Witness for C9 at sign 1. -/
theorem add_signed_preserves_receiver_witness :
    ∃ r, add_signedState (⟨1, 2, 3, 4⟩ : LorentzVector ℚ) ⟨5, 6, 7, 8⟩ 1 =
      some (⟨1, 2, 3, 4⟩, r) :=
  add_signed_preserves_receiver ⟨1, 2, 3, 4⟩ ⟨5, 6, 7, 8⟩ 1
    (Or.inr (Or.inr rfl))

/-- Counterexample to C6 as stated: a slice of length 5 (≠ 4) does not make
`from_slice` panic; it returns the vector of the first four elements. -/
theorem from_slice_len5_no_panic :
    from_slice ([1, 2, 3, 4, 5] : List ℚ) = some ⟨1, 2, 3, 4⟩ ∧
    ([1, 2, 3, 4, 5] : List ℚ).length ≠ 4 := by
  exact ⟨rfl, by decide⟩

/-- C6 (amended): `from_slice`/`from_vec` panic exactly when the sequence has
fewer than four elements; for length at least 4 they return the vector with
`t = v[0], x = v[1], y = v[2], z = v[3]`, ignoring any further elements. -/
theorem from_slice_amended {T : Type} [Field T] (v : List T) :
    (v.length < 4 → from_slice v = none ∧ from_vec v = none) ∧
    (∀ a b c d rest, v = a :: b :: c :: d :: rest →
      from_slice v = some ⟨a, b, c, d⟩ ∧ from_vec v = some ⟨a, b, c, d⟩) := by
  constructor
  · intro h
    match v, h with
    | [], _ => exact ⟨rfl, rfl⟩
    | [_], _ => exact ⟨rfl, rfl⟩
    | [_, _], _ => exact ⟨rfl, rfl⟩
    | [_, _, _], _ => exact ⟨rfl, rfl⟩
    | _ :: _ :: _ :: _ :: _, h => simp at h; omega
  · rintro a b c d rest rfl
    exact ⟨by simp [from_slice], by simp [from_vec]⟩

/-- Witness for C6: a short list panics, a 4-element list builds the vector. -/
theorem from_slice_amended_witness :
    from_slice ([1, 2] : List ℚ) = none ∧
    from_slice ([1, 2, 3, 4] : List ℚ) = some ⟨1, 2, 3, 4⟩ := by
  refine ⟨((from_slice_amended ([1, 2] : List ℚ)).1 (by decide)).1, ?_⟩
  exact ((from_slice_amended ([1, 2, 3, 4] : List ℚ)).2 1 2 3 4 [] rfl).1

/-- C2: boosting any vector by the zero boost vector returns it unchanged
(the `b2 > 0` guard takes the at-rest branch, so no 0/0 form is evaluated). -/
theorem boost_by_zero (v : LorentzVector ℝ) : boost v ⟨0, 0, 0, 0⟩ = v := by
  simp [boost, spatial_squared, spatial_dot, Real.sqrt_one]

/-- C4: whenever `p` and `q` are spatially coincident up to the tolerance
(`(p - q).spatial_distance() < eps * eps` with `eps = 2·ε`), `boost_from_to`
returns the zero vector immediately, regardless of `self`. -/
theorem boost_from_to_coincident (sel p q : LorentzVector ℝ)
    (h : spatial_distance (sub p q) < (eps64 + eps64) * (eps64 + eps64)) :
    boost_from_to sel p q = new := by
  simp only [boost_from_to]
  rw [if_pos h]

/-- Witness for C4 at `p = q = (1,1,1,1)`, `self = (1,2,3,4)`. -/
theorem boost_from_to_coincident_witness :
    spatial_distance (sub (⟨1, 1, 1, 1⟩ : LorentzVector ℝ) ⟨1, 1, 1, 1⟩) <
      (eps64 + eps64) * (eps64 + eps64) ∧
    boost_from_to ⟨1, 2, 3, 4⟩ (⟨1, 1, 1, 1⟩ : LorentzVector ℝ) ⟨1, 1, 1, 1⟩ =
      new := by
  have hd : spatial_distance
      (sub (⟨1, 1, 1, 1⟩ : LorentzVector ℝ) ⟨1, 1, 1, 1⟩) = 0 := by
    simp [spatial_distance, sub]
  have hlt : spatial_distance
      (sub (⟨1, 1, 1, 1⟩ : LorentzVector ℝ) ⟨1, 1, 1, 1⟩) <
      (eps64 + eps64) * (eps64 + eps64) := by
    rw [hd]; unfold eps64; positivity
  exact ⟨hlt, boost_from_to_coincident _ _ _ hlt⟩

/-- The polynomial core of the boost invariance: with `γ²(1−s) = 1` and
`g2·s = γ−1`, the boosted Minkowski square collapses to the original one.
Here `t` is the time component, `bp` the spatial dot of the vector with the
boost vector, `s` the boost vector's spatial square and `X` the vector's
spatial square. -/
theorem boost_sq_alg (t bp s X γ g2 : ℝ) (hs : s ≠ 0)
    (hγ : γ ^ 2 * (1 - s) = 1) (hg : g2 * s = γ - 1) :
    (γ * (t + bp)) ^ 2 -
        (X + 2 * (g2 * bp + γ * t) * bp + (g2 * bp + γ * t) ^ 2 * s) =
      t ^ 2 - X := by
  have hγeq : γ = g2 * s + 1 := by linarith
  subst hγeq
  have hs' : s * (g2 ^ 2 * s * (1 - s) + 2 * g2 * (1 - s) - 1) = 0 := by
    linear_combination hγ
  have hR : g2 ^ 2 * s * (1 - s) + 2 * g2 * (1 - s) - 1 = 0 :=
    (mul_eq_zero.mp hs').resolve_left hs
  linear_combination (t ^ 2 * s - bp ^ 2) * hR

/-- C3: a boost by any boost vector with spatial square strictly below 1
preserves the Minkowski square exactly, over exact real arithmetic. -/
theorem boost_preserves_square (v bv : LorentzVector ℝ)
    (h : spatial_squared bv < 1) :
    square (boost v bv) = square v := by
  have hb2 : 0 ≤ spatial_squared bv := by
    simp only [spatial_squared]
    have := mul_self_nonneg bv.x
    have := mul_self_nonneg bv.y
    have := mul_self_nonneg bv.z
    linarith
  rcases eq_or_lt_of_le hb2 with hzero | hpos
  · have hxx : bv.x * bv.x = 0 := by
      simp only [spatial_squared] at hzero
      nlinarith [mul_self_nonneg bv.x, mul_self_nonneg bv.y,
        mul_self_nonneg bv.z]
    have hyy : bv.y * bv.y = 0 := by
      simp only [spatial_squared] at hzero
      nlinarith [mul_self_nonneg bv.x, mul_self_nonneg bv.y,
        mul_self_nonneg bv.z]
    have hzz : bv.z * bv.z = 0 := by
      simp only [spatial_squared] at hzero
      nlinarith [mul_self_nonneg bv.x, mul_self_nonneg bv.y,
        mul_self_nonneg bv.z]
    have hx := mul_self_eq_zero.mp hxx
    have hy := mul_self_eq_zero.mp hyy
    have hz := mul_self_eq_zero.mp hzz
    simp [boost, square, spatial_squared, spatial_dot, hx, hy, hz,
      Real.sqrt_one]
  · have h1s : 0 < 1 - spatial_squared bv := by linarith
    have hγsq : ((Real.sqrt (1 - spatial_squared bv))⁻¹) ^ 2 *
        (1 - spatial_squared bv) = 1 := by
      rw [inv_pow, Real.sq_sqrt h1s.le]
      exact inv_mul_cancel₀ h1s.ne'
    have hg : ((Real.sqrt (1 - spatial_squared bv))⁻¹ - 1) /
          spatial_squared bv * spatial_squared bv =
        (Real.sqrt (1 - spatial_squared bv))⁻¹ - 1 :=
      div_mul_cancel₀ _ hpos.ne'
    have key := boost_sq_alg v.t (spatial_dot v bv) (spatial_squared bv)
      (v.x ^ 2 + v.y ^ 2 + v.z ^ 2)
      ((Real.sqrt (1 - spatial_squared bv))⁻¹)
      (((Real.sqrt (1 - spatial_squared bv))⁻¹ - 1) / spatial_squared bv)
      hpos.ne' hγsq hg
    have hpos' : 0 < bv.x * bv.x + bv.y * bv.y + bv.z * bv.z := by
      simp only [spatial_squared] at hpos; exact hpos
    simp only [boost, square, spatial_squared, spatial_dot] at key ⊢
    rw [if_pos hpos']
    linear_combination key

/-- Witness for C3 at `v = (1,0,0,0)` and boost vector `(0, 1/2, 0, 0)`. -/
theorem boost_preserves_square_witness :
    spatial_squared (⟨0, 1/2, 0, 0⟩ : LorentzVector ℝ) < 1 ∧
    square (boost ⟨1, 0, 0, 0⟩ ⟨0, 1/2, 0, 0⟩) =
      square (⟨1, 0, 0, 0⟩ : LorentzVector ℝ) := by
  have h : spatial_squared (⟨0, 1/2, 0, 0⟩ : LorentzVector ℝ) < 1 := by
    norm_num [spatial_squared]
  exact ⟨h, boost_preserves_square _ _ h⟩

/-- C5: `getdelphi` returns the sentinel `f64::MAX` when either transverse
momentum is zero; otherwise, with `c` the cosine ratio, it panics exactly when
`|c| > 1 + ε`, clamps to exactly `±1` before the inverse cosine when
`1 < |c| ≤ 1 + ε`, and returns `acos(c)` when `|c| ≤ 1`. -/
theorem getdelphi_cases (p1 p2 : LorentzVector ℝ) :
    (pt p1 = 0 ∨ pt p2 = 0 → getdelphi p1 p2 = some f64_max) ∧
    (pt p1 ≠ 0 → pt p2 ≠ 0 →
      ((getdelphi p1 p2 = none ↔ 1 + eps64 < |cosdelphi p1 p2|) ∧
       (1 < |cosdelphi p1 p2| → |cosdelphi p1 p2| ≤ 1 + eps64 →
         getdelphi p1 p2 =
             some (Real.arccos (cosdelphi p1 p2 / |cosdelphi p1 p2|)) ∧
           (cosdelphi p1 p2 / |cosdelphi p1 p2| = 1 ∨
            cosdelphi p1 p2 / |cosdelphi p1 p2| = -1)) ∧
       (|cosdelphi p1 p2| ≤ 1 →
         getdelphi p1 p2 = some (Real.arccos (cosdelphi p1 p2))))) := by
  constructor
  · intro h
    simp only [getdelphi]
    rw [if_pos h]
  · intro h1 h2
    have hne : ¬(pt p1 = 0 ∨ pt p2 = 0) := by tauto
    have hgd : getdelphi p1 p2 =
        if 1 + eps64 < |cosdelphi p1 p2| then none
        else if 1 < |cosdelphi p1 p2| then
          some (Real.arccos (cosdelphi p1 p2 / |cosdelphi p1 p2|))
        else some (Real.arccos (cosdelphi p1 p2)) := by
      simp only [getdelphi, cosdelphi]
      rw [if_neg hne]
    refine ⟨?_, ?_, ?_⟩
    · rw [hgd]
      split_ifs with hb hm
      · simp [hb]
      · simp [hb]
      · simp [hb]
    · intro hm hle
      rw [hgd, if_neg (not_lt.mpr hle), if_pos hm]
      refine ⟨rfl, ?_⟩
      have hcne : cosdelphi p1 p2 ≠ 0 := by
        intro h0
        rw [h0] at hm
        simp at hm
        linarith
      rcases lt_or_gt_of_ne hcne with hneg | hpos2
      · right
        rw [abs_of_neg hneg, div_neg, div_self hcne]
      · left
        rw [abs_of_pos hpos2, div_self hcne]
    · intro hle
      have hb : ¬(1 + eps64 < |cosdelphi p1 p2|) := by
        push_neg
        linarith [eps64_pos]
      rw [hgd, if_neg hb, if_neg (not_lt.mpr hle)]

/-- Witness for C5: two vectors with identical unit transverse direction have
cosine ratio exactly 1 and the in-range branch returns `acos(1)`. -/
theorem getdelphi_cases_witness :
    pt (⟨0, 1, 0, 0⟩ : LorentzVector ℝ) ≠ 0 ∧
    getdelphi (⟨0, 1, 0, 0⟩ : LorentzVector ℝ) ⟨0, 1, 0, 0⟩ =
      some (Real.arccos (cosdelphi (⟨0, 1, 0, 0⟩ : LorentzVector ℝ)
        ⟨0, 1, 0, 0⟩)) := by
  have hpt : pt (⟨0, 1, 0, 0⟩ : LorentzVector ℝ) = 1 := by
    simp [pt]
  have hc : cosdelphi (⟨0, 1, 0, 0⟩ : LorentzVector ℝ) ⟨0, 1, 0, 0⟩ = 1 := by
    simp [cosdelphi, hpt]
  have h := (getdelphi_cases (⟨0, 1, 0, 0⟩ : LorentzVector ℝ)
      ⟨0, 1, 0, 0⟩).2 (by rw [hpt]; norm_num) (by rw [hpt]; norm_num)
  exact ⟨by rw [hpt]; norm_num, h.2.2 (by rw [hc]; norm_num)⟩

/-- Counterexample to C1 as stated: `pseudo_rap` of `(1,0,0,0)` is not the
maximum representable value (it is the minimum: `z = 0` fails the `z > 0`
test of the degenerate branch). -/
theorem pseudo_rap_1000_not_max : pseudo_rap ⟨1, 0, 0, 0⟩ ≠ f64_max := by
  rw [pseudo_rap_at_1000, f64_min]
  intro hcontra
  have := f64_max_pos
  linarith

/-- C1 (amended): `pseudo_rap()` of `(1,0,0,0)` — zero transverse momentum and
zero `z` — takes the degenerate branch and returns the scalar type's minimum
representable value, because `z = 0` is not strictly positive. -/
theorem pseudo_rap_1000_eq_min : pseudo_rap ⟨1, 0, 0, 0⟩ = f64_min :=
  pseudo_rap_at_1000
